import Mathlib

/-!
Verification of the CIAL Activity Tracker eligibility/statistics engine.

Shallow embedding of `src/utils/logic.ts` (`calculateEligibility`,
`calculateStats`) and of the submission gate in
`src/services/apiService.ts` (`InternApiService.submitActivity`).

Modelling conventions:

* An ISO `YYYY-MM-DD` date string is represented by its epoch-day number
  (an `Int`).  For strings of this fixed shape, JavaScript string
  comparison (`localeCompare`, default `Array.prototype.sort`) orders
  exactly as the day numbers do, string equality (`===`, `Set`
  membership) coincides with day-number equality, and
  `new Date(s).getTime()` equals `dayNumber * 86400000` (UTC midnight),
  so `Math.floor(diffTime / 86400000)` is exactly the day-number
  difference and `Math.round` of a whole-day quotient is the quotient
  itself.
* JavaScript numbers are represented by `Rat`.  Every arithmetic step the
  embedded code performs on them (sums of hours, the single division
  producing the average, integer day differences) is reproduced verbatim.
* `Number(curr.hours) || 0`: an `hours` field whose `Number` coercion is
  `NaN` (missing / non-numeric) is modelled as `none` and coerced to `0`;
  a numeric field is `some q`.
* `calculateStats` reads the clock itself (`new Date()`, twice); the
  calendar day of that ambient clock read is modelled as the explicit
  parameter `today`, with "yesterday" (`setDate(getDate() - 1)`) being
  `today - 1` (UTC).
* `calculateEligibility` receives `joiningDate` (a string in the code);
  the body never mentions it, which the embedding reproduces.
-/

namespace CIAL

/-- The part of an activity record read by `utils/logic.ts`
(`a.date`, `a.hours`).  The remaining fields of the TypeScript
`Activity` type (`id`, `internId`, `description`, `category`,
`timestamp`, `qualityScore`, `proofLink`) are never consulted by
`calculateEligibility` / `calculateStats`. -/
structure Activity where
  date : Int
  hours : Option Rat
deriving Repr, DecidableEq

/-- Model of `Number(curr.hours) || 0` from `logic.ts` lines 8 and 44. -/
def hoursNum (h : Option Rat) : Rat := h.getD 0

/-- Record `Statistics` from `types.ts`, as returned by `calculateStats`. -/
structure Statistics where
  totalActiveDays : Nat
  averageHours : Rat
  currentStreak : Nat
  totalSubmissions : Nat
deriving Repr, DecidableEq

/-- One entry of the `reasons` array built by `calculateEligibility`.
The constructors carry the interpolated measurement and stand for the
exact source strings:
* `minDays n` ↦ `Requires 60 active days (Current: ${n})`
* `minAvgHours q` ↦ `Average hours must be ≥ 2.5 (Current: ${q.toFixed(1)})`
* `gapExceeded g` ↦ `Maximum gap exceeded 3 consecutive days (Worst gap: ${g} days)` -/
inductive Reason where
  | minDays (current : Nat)
  | minAvgHours (current : Rat)
  | gapExceeded (worst : Int)
deriving Repr, DecidableEq

/-- Record `EligibilityResult` from `types.ts`. -/
structure EligibilityResult where
  isEligible : Bool
  activeDays : Nat
  averageHours : Rat
  maxGapDays : Int
  reasons : List Reason
deriving Repr, DecidableEq

/-- Walk of a list inserting each element into a growing set: `seen`
holds the set contents so far, and an element already present is
skipped.  Together with `uniqueList` below this models
`Array.from(new Set(xs))`, which enumerates the distinct elements of
`xs` in first-occurrence order. -/
def uniqueAux : List Int → List Int → List Int
  | [], _ => []
  | d :: rest, seen =>
      if d ∈ seen then uniqueAux rest seen else d :: uniqueAux rest (d :: seen)

/-- Model of `Array.from(new Set(xs))`: the distinct elements of `xs`
in first-occurrence order. -/
def uniqueList (l : List Int) : List Int := uniqueAux l []

/-- The comparator `(a, b) => a.date.localeCompare(b.date)` of
`logic.ts` line 4, as the ordering relation handed to the (stable)
sort. -/
def dateLE (a b : Activity) : Prop := a.date ≤ b.date

instance : DecidableRel dateLE := fun a b => inferInstanceAs (Decidable (a.date ≤ b.date))

instance : IsTotal Activity dateLE := ⟨fun a b => Int.le_total a.date b.date⟩

instance : IsTrans Activity dateLE := ⟨fun _ _ _ h1 h2 => le_trans h1 h2⟩

/-- The loop of `logic.ts` lines 13–19: walk the sorted list pairwise;
`diffDays = Math.floor((curr - prev) ms / 86400000) - 1`, and
`if (diffDays > maxGap) maxGap = diffDays`. -/
def maxGapWalk : Activity → List Activity → Int → Int
  | _, [], acc => acc
  | prev, curr :: rest, acc =>
      let diffDays := curr.date - prev.date - 1
      maxGapWalk curr rest (if diffDays > acc then diffDays else acc)

/-- Function `calculateEligibility` from `src/utils/logic.ts` lines 3–35.
`joiningDate` is the second TypeScript parameter; the body never uses
it.  The guard `if (sorted.length > 1)` is the `match`: with zero or one
record the loop body never runs and `maxGap` stays `0`. -/
def calculateEligibility (activities : List Activity) (joiningDate : String) : EligibilityResult :=
  let sorted := List.insertionSort dateLE activities
  let uniqueDates := uniqueList (activities.map (·.date))
  let activeDays := uniqueDates.length
  let totalHours := activities.foldl (fun acc curr => acc + hoursNum curr.hours) 0
  let averageHours := if activeDays > 0 then totalHours / (activeDays : Rat) else 0
  let maxGap : Int :=
    match sorted with
    | [] => 0
    | a :: rest => maxGapWalk a rest 0
  let reasons : List Reason :=
    (if activeDays < 60 then [Reason.minDays activeDays] else []) ++
    (if averageHours < 5 / 2 then [Reason.minAvgHours averageHours] else []) ++
    (if maxGap > 3 then [Reason.gapExceeded maxGap] else [])
  { isEligible := decide (reasons.length = 0) && decide (activeDays > 0)
    activeDays := activeDays
    averageHours := averageHours
    maxGapDays := maxGap
    reasons := reasons }

/-- The streak loop of `logic.ts` lines 63–72: `prev` is
`dateStrs[i-1]` (newer), the head of the list is `dateStrs[i]`;
`diff = (d1 - d2) / 86400000` is a whole number of days here, so
`Math.round(diff) === 1` is `prev - d = 1`; on a match the streak
increments and the walk continues, otherwise it `break`s. -/
def streakWalk : Int → List Int → Nat → Nat
  | _, [], streak => streak
  | prev, d :: rest, streak =>
      if prev - d = 1 then streakWalk d rest (streak + 1) else streak

/-- Function `calculateStats` from `src/utils/logic.ts` lines 37–82.  `today` is
the calendar day of the ambient `new Date()` clock read (see the module
docstring); `yesterdayStr` is `today - 1`.  `Array.from(uniqueDates)`
enumerates first occurrences, `.sort()` sorts the ISO strings ascending
(= day order), `.reverse()` puts the newest first. -/
def calculateStats (activities : List Activity) (today : Int) : Statistics :=
  if activities.length = 0 then
    { totalActiveDays := 0, averageHours := 0, currentStreak := 0, totalSubmissions := 0 }
  else
    let uniqueDates := uniqueList (activities.map (·.date))
    let activeDays := uniqueDates.length
    let totalHours := activities.foldl (fun acc curr => acc + hoursNum curr.hours) 0
    let averageHours := if activeDays > 0 then totalHours / (activeDays : Rat) else 0
    let dateStrs := (List.insertionSort (fun a b : Int => a ≤ b) uniqueDates).reverse
    let streak : Nat :=
      match dateStrs with
      | [] => 0
      | d :: rest =>
          if d ≠ today ∧ d ≠ today - 1 then 0
          else streakWalk d rest 1
    { totalActiveDays := activeDays
      averageHours := averageHours
      currentStreak := streak
      totalSubmissions := activities.length }

/-- The part of a stored activity record read by
`InternApiService.submitActivity`: `internId` (for the
`getActivities(activity.internId)` filter) and `date` (for the
duplicate check). -/
structure ApiActivity where
  internId : String
  date : Int
deriving Repr, DecidableEq

/-- Environment-produced pieces of the new record assembled by
`submitActivity`: `id = act-${Date.now()}`, `timestamp`, and the
`qualityScore` from the AI call (5 when that call fails).  None of them
influences the accept/reject decision. -/
structure ApiActivityMeta where
  id : String
  timestamp : String
  qualityScore : Rat
deriving Repr, DecidableEq

/-- Model of `InternApiService.getActivities`
(`src/services/apiService.ts` lines 101–105):
`if (internId) return activities.filter(a => a.internId === internId);
return activities;`.  The argument `submitActivity` passes is the
required `string` field `activity.internId`, whose only falsy value is
the empty string, so the JavaScript truthiness test `if (internId)` is
`internId ≠ ""`: a truthy id selects that intern, while the empty
string returns the whole store unfiltered. -/
def getActivities (allActivities : List ApiActivity) (internId : String) : List ApiActivity :=
  if internId ≠ "" then allActivities.filter (fun a => a.internId == internId)
  else allActivities

/-- The gate of `InternApiService.submitActivity`
(`src/services/apiService.ts` lines 107–111 and 136–141):
`getActivities(activity.internId)` yields the records the duplicate
check scans (the intern records for a truthy id, the whole store for
the empty-string id); a record with the submitted date throws
`"A record for today already exists."`; otherwise the submitted record,
completed with the environment-produced `meta`, is returned. -/
def submitActivity (allActivities : List ApiActivity) (sub : ApiActivity)
    (meta : ApiActivityMeta) : Except String (ApiActivity × ApiActivityMeta) :=
  let currentActivities := getActivities allActivities sub.internId
  match currentActivities.find? (fun a => a.date == sub.date) with
  | some _ => Except.error "A record for today already exists."
  | none => Except.ok (sub, meta)

/-! ## Spec-side definitions

Definitions written from the wording of the specification, to be compared with
the embedded code above. -/

/-- Spec §3: the count of distinct `date` values present. -/
def distinctDateCount (activities : List Activity) : Nat :=
  (activities.map (·.date)).toFinset.card

/-- Spec §4.1 step 2: `totalHours = sum(hours over all records)`,
coercing non-numeric/missing hours to 0. -/
def totalHoursSpec (activities : List Activity) : Rat :=
  (activities.map (fun a => hoursNum a.hours)).sum

/-- Spec §4.1 step 4 (claim C2): "the number of consecutive prior
distinct dates each exactly one calendar day before the previous one in
the sorted sequence; the walk stops at the first non-consecutive
gap". -/
def consecPriorCount : Int → List Int → Nat
  | _, [] => 0
  | prev, d :: rest => if prev - d = 1 then 1 + consecPriorCount d rest else 0

/-- Spec §4.1 step 4, in the wording of the spec: over the distinct dates
sorted descending, the streak is 0 when the newest is neither "today"
nor "yesterday", and otherwise 1 plus the number of consecutive prior
distinct dates. -/
def currentStreakSpec (activities : List Activity) (today : Int) : Nat :=
  match (List.insertionSort (fun a b : Int => a ≤ b)
      (uniqueList (activities.map (·.date)))).reverse with
  | [] => 0
  | d :: rest =>
      if d = today ∨ d = today - 1 then 1 + consecPriorCount d rest else 0

/-! ## Helper lemmas -/

theorem mem_uniqueAux : ∀ (l seen : List Int) (a : Int),
    a ∈ uniqueAux l seen ↔ a ∈ l ∧ a ∉ seen := by
  intro l
  induction l with
  | nil => intro seen a; simp [uniqueAux]
  | cons d rest ih =>
    intro seen a
    simp only [uniqueAux, List.mem_cons]
    by_cases hd : d ∈ seen
    · rw [if_pos hd, ih]
      constructor
      · rintro ⟨h1, h2⟩
        exact ⟨Or.inr h1, h2⟩
      · rintro ⟨h1 | h1, h2⟩
        · exact absurd (h1 ▸ hd : a ∈ seen) h2
        · exact ⟨h1, h2⟩
    · rw [if_neg hd]
      simp only [List.mem_cons, ih, List.mem_cons]
      constructor
      · rintro (h1 | ⟨h1, h2⟩)
        · exact ⟨Or.inl h1, h1 ▸ hd⟩
        · exact ⟨Or.inr h1, fun hs => h2 (Or.inr hs)⟩
      · rintro ⟨h1 | h1, h2⟩
        · exact Or.inl h1
        · by_cases had : a = d
          · exact Or.inl had
          · exact Or.inr ⟨h1, fun hs => (hs.elim had h2 : False)⟩

theorem uniqueAux_nodup : ∀ l seen : List Int, (uniqueAux l seen).Nodup := by
  intro l
  induction l with
  | nil => intro seen; simp [uniqueAux]
  | cons d rest ih =>
    intro seen
    simp only [uniqueAux]
    split
    · exact ih seen
    · rw [List.nodup_cons]
      refine ⟨fun hmem => ?_, ih _⟩
      exact ((mem_uniqueAux rest (d :: seen) d).mp hmem).2 (List.mem_cons_self d seen)

theorem uniqueAux_length_le : ∀ l seen : List Int, (uniqueAux l seen).length ≤ l.length := by
  intro l
  induction l with
  | nil => intro seen; simp [uniqueAux]
  | cons d rest ih =>
    intro seen
    simp only [uniqueAux, List.length_cons]
    split
    · exact le_trans (ih seen) (Nat.le_succ _)
    · simpa using Nat.succ_le_succ (ih (d :: seen))

theorem mem_uniqueList (l : List Int) (a : Int) : a ∈ uniqueList l ↔ a ∈ l := by
  rw [uniqueList, mem_uniqueAux]
  simp

theorem uniqueList_nodup (l : List Int) : (uniqueList l).Nodup := uniqueAux_nodup l []

theorem uniqueList_length_le (l : List Int) : (uniqueList l).length ≤ l.length :=
  uniqueAux_length_le l []

theorem uniqueList_length_eq_card (l : List Int) :
    (uniqueList l).length = l.toFinset.card := by
  have h1 : (uniqueList l).toFinset = l.toFinset := by
    ext a
    simp [List.mem_toFinset, mem_uniqueList]
  calc (uniqueList l).length = (uniqueList l).toFinset.card :=
        (List.toFinset_card_of_nodup (uniqueList_nodup l)).symm
    _ = l.toFinset.card := by rw [h1]

theorem foldl_hours : ∀ (activities : List Activity) (init : Rat),
    activities.foldl (fun acc curr => acc + hoursNum curr.hours) init =
      init + totalHoursSpec activities := by
  intro activities
  induction activities with
  | nil => intro init; simp [totalHoursSpec]
  | cons a rest ih =>
    intro init
    rw [List.foldl_cons, ih]
    simp only [totalHoursSpec, List.map_cons, List.sum_cons]
    ring

theorem maxGapWalk_le_result : ∀ (l : List Activity) (prev : Activity) (acc : Int),
    acc ≤ maxGapWalk prev l acc := by
  intro l
  induction l with
  | nil => intro prev acc; simp [maxGapWalk]
  | cons c rest ih =>
    intro prev acc
    simp only [maxGapWalk]
    refine le_trans ?_ (ih c _)
    split <;> omega

theorem streakWalk_eq_consec : ∀ (l : List Int) (prev : Int) (s : Nat),
    streakWalk prev l s = s + consecPriorCount prev l := by
  intro l
  induction l with
  | nil => intro prev s; simp [streakWalk, consecPriorCount]
  | cons d rest ih =>
    intro prev s
    simp only [streakWalk, consecPriorCount]
    by_cases h : prev - d = 1
    · simp only [if_pos h]
      rw [ih]
      omega
    · simp only [if_neg h]
      omega

theorem streakWalk_le : ∀ (l : List Int) (prev : Int) (s : Nat),
    streakWalk prev l s ≤ s + l.length := by
  intro l
  induction l with
  | nil => intro prev s; simp [streakWalk]
  | cons d rest ih =>
    intro prev s
    simp only [streakWalk, List.length_cons]
    split
    · exact le_trans (ih d (s + 1)) (by omega)
    · omega


/-! ## Claim theorems -/

/-- C7: `calculateEligibility` accepts `joiningDate` but does not use it:
for every record list and any two joiningDate values the results are
identical in every field. -/
theorem C7_joiningDate_unused (activities : List Activity) (j1 j2 : String) :
    calculateEligibility activities j1 = calculateEligibility activities j2 := rfl

/-- C3: on records {date 2024-01-01 (epoch day 19723), hours 3} and
{date 2024-01-02 (epoch day 19724), hours 2}, against the hard-coded
thresholds (60 active days, 2.5 average hours, max gap 3),
`calculateEligibility` returns activeDays 2, averageHours 5/2 = 2.5,
maxGapDays 0, isEligible false, and exactly one reason — the
60-active-days one (`Requires 60 active days (Current: 2)`). -/
theorem C3_two_day_scenario (j : String) :
    calculateEligibility [⟨19723, some 3⟩, ⟨19724, some 2⟩] j =
      { isEligible := false, activeDays := 2, averageHours := 5 / 2,
        maxGapDays := 0, reasons := [Reason.minDays 2] } := by
  norm_num [calculateEligibility, uniqueList, uniqueAux, hoursNum, maxGapWalk, dateLE,
    List.insertionSort, List.orderedInsert]

/-- C6: on the empty record list `calculateStats` returns all-zero
statistics and `calculateEligibility` returns an ineligible result whose
reasons contain the active-days reason (here together with the
average-hours reason, both with measured value 0); both embedded
functions are total, mirroring that the source raises no exception on
empty input. -/
theorem C6_empty_inputs :
    (∀ today : Int, calculateStats [] today =
      { totalActiveDays := 0, averageHours := 0, currentStreak := 0,
        totalSubmissions := 0 }) ∧
    (∀ j : String, calculateEligibility [] j =
      { isEligible := false, activeDays := 0, averageHours := 0, maxGapDays := 0,
        reasons := [Reason.minDays 0, Reason.minAvgHours 0] }) ∧
    ∀ j : String, Reason.minDays 0 ∈ (calculateEligibility [] j).reasons := by
  have h2 : ∀ j : String, calculateEligibility [] j =
      { isEligible := false, activeDays := 0, averageHours := 0, maxGapDays := 0,
        reasons := [Reason.minDays 0, Reason.minAvgHours 0] } := fun j => by
    norm_num [calculateEligibility, uniqueList, uniqueAux, List.insertionSort]
  refine ⟨fun _ => rfl, h2, fun j => ?_⟩
  rw [h2 j]
  exact List.mem_cons_self _ _

/-- C8 (counterexample): the output of `calculateStats` depends on the
ambient clock `new Date()` reads, here modelled as the explicit `today`
input: identical record lists at two different clock days produce
different outputs (streak 1 on the day of the record, streak 0 a week
later).  So the TypeScript function — whose only parameter is the record
list — does NOT take `referenceNow` as an argument; the clock is hidden
state of the call. -/
theorem C8_clock_counterexample :
    calculateStats [⟨19723, some 1⟩] 19723 ≠ calculateStats [⟨19723, some 1⟩] 19730 := by
  intro h
  have h1 : (calculateStats [⟨19723, some 1⟩] 19723).currentStreak = 1 := rfl
  have h2 : (calculateStats [⟨19723, some 1⟩] 19730).currentStreak = 0 := rfl
  rw [h, h2] at h1
  exact absurd h1 zero_ne_one

/-- C8 (amended): modelling the global clock read as the explicit input
`today`, `calculateStats` is a pure function of (records, today): two
calls with equal record lists and equal clock days give equal outputs,
and `calculateEligibility` likewise depends only on its record list. -/
theorem C8_deterministic (acts1 acts2 : List Activity) (t1 t2 : Int)
    (hacts : acts1 = acts2) (ht : t1 = t2) :
    calculateStats acts1 t1 = calculateStats acts2 t2 ∧
    ∀ j1 j2 : String, calculateEligibility acts1 j1 = calculateEligibility acts2 j2 := by
  subst hacts
  subst ht
  exact ⟨rfl, fun _ _ => rfl⟩

/-- C8 (witness for the amended theorem). -/
theorem C8_deterministic_witness :
    calculateStats [⟨19723, some 1⟩] 19723 = calculateStats [⟨19723, some 1⟩] 19723 :=
  (C8_deterministic [⟨19723, some 1⟩] [⟨19723, some 1⟩] 19723 19723 rfl rfl).1

/-- C5: `isEligible` is true exactly when the reasons list is empty AND
there is at least one active day; in particular the empty record list is
never eligible. -/
theorem C5_isEligible_iff :
    (∀ (activities : List Activity) (j : String),
      (calculateEligibility activities j).isEligible = true ↔
        (calculateEligibility activities j).reasons = [] ∧
          0 < (calculateEligibility activities j).activeDays) ∧
    ∀ j : String, (calculateEligibility [] j).isEligible = false := by
  constructor
  · intro activities j
    simp [calculateEligibility, List.length_eq_zero]
  · intro j
    rfl

/-- C1: the maximum gap is computed over the records sorted ascending by
date, taking for each adjacent pair the floored day difference minus one
and keeping the running maximum started at 0.  Consequences proved here:
the result is never negative; records on days D, D+1, D+4 give exactly
2; adjacent duplicate dates (pair difference -1) cannot raise the
maximum — two same-day records give 0. -/
theorem C1_maxGap_properties :
    (∀ (activities : List Activity) (j : String),
      0 ≤ (calculateEligibility activities j).maxGapDays) ∧
    (∀ (D : Int) (h1 h2 h3 : Option Rat) (j : String),
      (calculateEligibility [⟨D, h1⟩, ⟨D + 1, h2⟩, ⟨D + 4, h3⟩] j).maxGapDays = 2) ∧
    ∀ (D : Int) (h1 h2 : Option Rat) (j : String),
      (calculateEligibility [⟨D, h1⟩, ⟨D, h2⟩] j).maxGapDays = 0 := by
  refine ⟨?_, ?_, ?_⟩
  · intro activities j
    simp only [calculateEligibility]
    split
    · exact le_refl 0
    · exact maxGapWalk_le_result _ _ 0
  · intro D h1 h2 h3 j
    have hsorted : List.Sorted dateLE [⟨D, h1⟩, ⟨D + 1, h2⟩, ⟨D + 4, h3⟩] := by
      refine List.sorted_cons.mpr ⟨?_, List.sorted_cons.mpr ⟨?_, List.sorted_singleton _⟩⟩
      · intro b hb
        rcases List.mem_cons.mp hb with h | h
        · subst h
          show D ≤ D + 1
          omega
        · rcases List.mem_singleton.mp h with rfl
          show D ≤ D + 4
          omega
      · intro b hb
        rcases List.mem_singleton.mp hb with rfl
        show D + 1 ≤ D + 4
        omega
    simp only [calculateEligibility, List.Sorted.insertionSort_eq hsorted]
    have e1 : D + 1 - D - 1 = (0 : Int) := by ring
    have e2 : D + 4 - (D + 1) - 1 = (2 : Int) := by ring
    simp [maxGapWalk, e1, e2]
  · intro D h1 h2 j
    have hsorted : List.Sorted dateLE [⟨D, h1⟩, ⟨D, h2⟩] := by
      refine List.sorted_cons.mpr ⟨?_, List.sorted_singleton _⟩
      intro b hb
      rcases List.mem_singleton.mp hb with rfl
      show D ≤ D
      omega
    simp only [calculateEligibility, List.Sorted.insertionSort_eq hsorted]
    have e1 : D - D - 1 = (-1 : Int) := by ring
    simp [maxGapWalk, e1]

/-- C2: the streak computed by `calculateStats` matches the spec
description `currentStreakSpec`: over the distinct dates sorted
descending, it is 0 when the newest is neither today nor yesterday, and
otherwise 1 plus the number of consecutive prior distinct dates each
exactly one day before the previous, stopping at the first gap. -/
theorem C2_streak_characterisation (activities : List Activity) (today : Int) :
    (calculateStats activities today).currentStreak = currentStreakSpec activities today := by
  by_cases hlen : activities.length = 0
  · have h0 : activities = [] := List.length_eq_zero.mp hlen
    subst h0
    simp [calculateStats, currentStreakSpec, uniqueList, uniqueAux]
  · simp only [calculateStats, if_neg hlen, currentStreakSpec]
    generalize (List.insertionSort (fun a b : Int => a ≤ b)
        (uniqueList (activities.map (·.date)))).reverse = L
    cases L with
    | nil => rfl
    | cons d rest =>
      dsimp only
      by_cases h : d = today ∨ d = today - 1
      · have hn : ¬(d ≠ today ∧ d ≠ today - 1) := by tauto
        rw [if_neg hn, if_pos h, streakWalk_eq_consec]
      · have hn : d ≠ today ∧ d ≠ today - 1 := by tauto
        simp only [if_pos hn, if_neg h]

/-- C4: both functions count active days as the number of distinct date
strings, sum hours over ALL records (missing/non-numeric hours coerced
to 0, duplicate-date records each contributing), and divide the total by
the distinct-date count when positive (else 0); totalSubmissions is the
raw record count. -/
theorem C4_counts_hours_average (activities : List Activity) (j : String) (today : Int) :
    (calculateEligibility activities j).activeDays = distinctDateCount activities ∧
    (calculateStats activities today).totalActiveDays = distinctDateCount activities ∧
    (calculateStats activities today).totalSubmissions = activities.length ∧
    (calculateEligibility activities j).averageHours =
      (if 0 < distinctDateCount activities then
        totalHoursSpec activities / (distinctDateCount activities : Rat) else 0) ∧
    (calculateStats activities today).averageHours =
      (if 0 < distinctDateCount activities then
        totalHoursSpec activities / (distinctDateCount activities : Rat) else 0) := by
  have hcard : (uniqueList (activities.map (·.date))).length = distinctDateCount activities :=
    uniqueList_length_eq_card _
  have hhours : activities.foldl (fun acc curr => acc + hoursNum curr.hours) 0 =
      totalHoursSpec activities := by
    rw [foldl_hours, zero_add]
  by_cases hlen : activities.length = 0
  · have h0 : activities = [] := List.length_eq_zero.mp hlen
    subst h0
    refine ⟨?_, ?_, ?_, ?_, ?_⟩ <;>
      simp [calculateEligibility, calculateStats, distinctDateCount, totalHoursSpec,
        uniqueList, uniqueAux]
  · refine ⟨?_, ?_, ?_, ?_, ?_⟩
    · simp only [calculateEligibility]
      exact hcard
    · simp only [calculateStats, if_neg hlen]
      exact hcard
    · simp only [calculateStats, if_neg hlen]
    · simp only [calculateEligibility, hhours, hcard]
    · simp only [calculateStats, if_neg hlen, hhours, hcard]

/-- C9 (counterexample): the claim as stated — error iff a record with
the submitted (internId, date) pair exists — fails at the type-valid
falsy id `internId = ""`: `getActivities("")` returns the WHOLE store
(`if (internId)` is false), so a store holding only a record of intern
B on day 0 makes the submission ("", day 0) throw the duplicate error
even though no record with internId "" exists. -/
theorem C9_empty_id_counterexample :
    (submitActivity [⟨"B", 0⟩] ⟨"", 0⟩ ⟨"id1", "ts1", 5⟩ =
        Except.error "A record for today already exists.") ∧
    ¬ ∃ a ∈ ([⟨"B", 0⟩] : List ApiActivity), a.internId = "" ∧ a.date = 0 := by
  constructor
  · rfl
  · rintro ⟨a, ha, hid, _⟩
    rw [List.mem_singleton] at ha
    subst ha
    exact absurd hid (by simp)

/-- C9 (amended): the submission gate errors with message
`A record for today already exists.` exactly when
`getActivities(sub.internId)` — the store filtered to the intern for a
truthy (non-empty) id, the WHOLE unfiltered store for the empty-string
id — holds a record with the submitted date; equivalently, iff the
store holds a record whose date equals the submitted date and whose
internId equals the submitted one or the submitted id is the empty
string.  Otherwise it returns the new record; for non-empty intern ids
this is exactly one record per (internId, date) at the boundary. -/
theorem C9_submission_gate (allActivities : List ApiActivity) (sub : ApiActivity)
    (meta : ApiActivityMeta) :
    (submitActivity allActivities sub meta =
        Except.error "A record for today already exists." ↔
      ∃ a ∈ allActivities, a.date = sub.date ∧
        (sub.internId = "" ∨ a.internId = sub.internId)) ∧
    ((¬ ∃ a ∈ allActivities, a.date = sub.date ∧
        (sub.internId = "" ∨ a.internId = sub.internId)) →
      submitActivity allActivities sub meta = Except.ok (sub, meta)) := by
  have key : (∃ a ∈ allActivities, a.date = sub.date ∧
      (sub.internId = "" ∨ a.internId = sub.internId)) ↔
      (List.find? (fun a => a.date == sub.date)
        (getActivities allActivities sub.internId)).isSome := by
    rw [List.find?_isSome]
    by_cases hid : sub.internId = ""
    · simp [getActivities, hid]
    · simp only [getActivities, if_pos (by exact hid : sub.internId ≠ "")]
      constructor
      · rintro ⟨a, hmem, hdate, h | h⟩
        · exact absurd h hid
        · exact ⟨a, List.mem_filter.mpr ⟨hmem, by simp [h]⟩, by simp [hdate]⟩
      · rintro ⟨a, hmem, hdate⟩
        obtain ⟨hmem2, h⟩ := List.mem_filter.mp hmem
        exact ⟨a, hmem2, by simpa using hdate, Or.inr (by simpa using h)⟩
  rw [key]
  simp only [submitActivity]
  cases hfind : List.find? (fun a => a.date == sub.date)
      (getActivities allActivities sub.internId) with
  | none => simp
  | some a => simp

/-- C9 (witness): a store holding a record for intern A on day 0 rejects
a second submission for (A, 0) with the duplicate message, and a store
holding only an unrelated record (intern B, day 1) accepts it. -/
theorem C9_submission_gate_witness :
    (submitActivity [⟨"A", 0⟩] ⟨"A", 0⟩ ⟨"id1", "ts1", 5⟩ =
        Except.error "A record for today already exists.") ∧
    submitActivity [⟨"B", 1⟩] ⟨"A", 0⟩ ⟨"id1", "ts1", 5⟩ =
      Except.ok (⟨"A", 0⟩, ⟨"id1", "ts1", 5⟩) := by
  constructor
  · exact (C9_submission_gate [⟨"A", 0⟩] ⟨"A", 0⟩ ⟨"id1", "ts1", 5⟩).1.mpr
      ⟨⟨"A", 0⟩, by simp⟩
  · exact (C9_submission_gate [⟨"B", 1⟩] ⟨"A", 0⟩ ⟨"id1", "ts1", 5⟩).2 (by simp)

/-- C10: invariant chain 0 ≤ currentStreak ≤ totalActiveDays ≤
totalSubmissions (the streak counts a subset of the distinct dates, and
distinct dates cannot exceed the raw record count); the lower bound 0 is
carried by the `Nat` result type. -/
theorem C10_statistics_bounds (activities : List Activity) (today : Int) :
    (calculateStats activities today).currentStreak ≤
        (calculateStats activities today).totalActiveDays ∧
      (calculateStats activities today).totalActiveDays ≤
        (calculateStats activities today).totalSubmissions := by
  by_cases hlen : activities.length = 0
  · have h0 : activities = [] := List.length_eq_zero.mp hlen
    subst h0
    exact ⟨le_refl 0, le_refl 0⟩
  · simp only [calculateStats, if_neg hlen]
    constructor
    · obtain ⟨L, hL⟩ : ∃ L, (List.insertionSort (fun a b : Int => a ≤ b)
          (uniqueList (activities.map (·.date)))).reverse = L := ⟨_, rfl⟩
      have hLlen : L.length = (uniqueList (activities.map (·.date))).length := by
        rw [← hL, List.length_reverse, (List.perm_insertionSort _ _).length_eq]
      rw [hL]
      cases L with
      | nil => exact Nat.zero_le _
      | cons d rest =>
        dsimp only
        rw [← hLlen]
        split
        · exact Nat.zero_le _
        · refine le_trans (streakWalk_le rest d 1) ?_
          simp only [List.length_cons]
          omega
    · exact le_trans (uniqueList_length_le _) (by simp)

end CIAL
